import Mathlib

/-!
# Verification of the TDS export utilities

Shallow embedding of the data-cleaning and export pipeline of this
repository (`automap_import.py` and its two near-duplicate variants).

A raw table is an ordered sequence of named columns, each an ordered list
of scalar cell values (numeric, text, or null).  External services
(database driver, HTTP client, HTML parser, spreadsheet writer) are
modelled as parameters or as the pure data they deliver; everything the
repository's own code computes is embedded as executable Lean functions.
-/

/-- A scalar cell value of a table.  Numeric values are modelled by `int`
(pandas treats `0` and `0.0` as the same value in `isin` membership
tests); `null` models SQL `NULL` / pandas `NaN` / Python `None`. -/
inductive Value where
  | int  : Int → Value
  | str  : String → Value
  | null : Value
deriving DecidableEq, Repr

/-- A named column: the column label plus its cell values in row order. -/
structure Column where
  name   : String
  values : List Value
deriving DecidableEq, Repr

/-- A table (pandas `DataFrame`): columns in display order.  Rows are the
positional indices into each column's `values`. -/
abbrev Table := List Column

/-- Python's substring test `pat in s` on character lists. -/
def listContainsSeq (pat : List Char) : List Char → Bool
  | [] => pat.isEmpty
  | x :: xs => pat.isPrefixOf (x :: xs) || listContainsSeq pat xs

/-- Python's `pat in s` substring test on strings. -/
def strContains (s pat : String) : Bool :=
  listContainsSeq pat.data s.data

/-- Python's `str.lower()` restricted to its ASCII action (column names
in these exports are ASCII), applied characterwise. -/
def strToLower (s : String) : String := ⟨s.data.map Char.toLower⟩

/-- `"recid" in c.lower()` — the column-name test used to drop record-id
columns in `clean_and_format_df`. -/
def recidName (s : String) : Bool := strContains (strToLower s) "recid"

/-- `"date" in col.lower()` — the column-name test selecting columns for
date reformatting in `clean_and_format_df`. -/
def dateName (s : String) : Bool := strContains (strToLower s) "date"

/-- The `invalid` list of `clean_and_format_df`
(`[0, "0", "0.0", "", " ", None, "NULL", "null"]`); a column whose every
value lies in this list is dropped. -/
def invalidList : List Value :=
  [Value.int 0, Value.str "0", Value.str "0.0", Value.str "",
   Value.str " ", Value.null, Value.str "NULL", Value.str "null"]

/-- Membership of one cell value in the `invalid` list. -/
def invalidVal (v : Value) : Bool := invalidList.contains v

/-! ## Decimal digits

Executable decimal rendering/parsing used to model the date formatting
(`strftime`) and date parsing (`pandas.to_datetime`) of the source.  The
digit list is computed structurally on a fuel argument so that all
definitions reduce inside the kernel. -/

/-- Little-endian base-10 digits of `n`, with `fuel` bounding recursion
depth (`fuel ≥ n` suffices). -/
def natDigitsAux : Nat → Nat → List Nat
  | 0, _ => []
  | _ + 1, 0 => []
  | fuel + 1, n + 1 => ((n + 1) % 10) :: natDigitsAux fuel ((n + 1) / 10)

/-- The character for a decimal digit. -/
def digitChar (d : Nat) : Char := Char.ofNat (48 + d)

/-- Decimal rendering of a natural number as a character list. -/
def natToChars (n : Nat) : List Char :=
  if n = 0 then ['0'] else ((natDigitsAux n n).reverse.map digitChar)

/-- Decimal parsing of a character list: `some n` iff the list is a
nonempty run of ASCII digits. -/
def charsToNat? (cs : List Char) : Option Nat :=
  if cs.isEmpty then none
  else if cs.all Char.isDigit then
    some (Nat.ofDigits 10 ((cs.map fun ch => ch.toNat - 48).reverse))
  else none

/-! ## Dates

`clean_and_format_df` reformats every column whose name contains "date"
with `pd.to_datetime(df[col], errors="coerce").dt.strftime("%m/%d/%Y").fillna("")`.
`to_datetime` is an external pandas routine; it is modelled here for the
value shapes the pipeline meets: ISO `YYYY-MM-DD` text and the pipeline's
own `MM/DD/YYYY` output parse to a calendar date, any other text, any
null, and any numeric value coerce to `NaT` (numbers are not produced by
the date-named columns of these exports).  The model validates month and
day ranges but, unlike pandas, not day-of-month against the calendar. -/

/-- A parsed calendar date. -/
structure Date where
  y : Nat
  m : Nat
  d : Nat
deriving DecidableEq, Repr

/-- Month/day bounds enforced by the modelled date parser. -/
def validDate (dt : Date) : Prop :=
  1 ≤ dt.m ∧ dt.m ≤ 12 ∧ 1 ≤ dt.d ∧ dt.d ≤ 31

instance (dt : Date) : Decidable (validDate dt) := by
  unfold validDate; infer_instance

/-- Split a character list at every occurrence of `c` (like
`str.split(c)`: `n` separators give `n + 1` fields). -/
def splitOnChar (c : Char) : List Char → List (List Char)
  | [] => [[]]
  | x :: xs =>
    if x = c then [] :: splitOnChar c xs
    else
      match splitOnChar c xs with
      | [] => [[x]]
      | h :: t => (x :: h) :: t

/-- Bounds-check a year/month/day triple. -/
def mkDate? (y m d : Nat) : Option Date :=
  if 1 ≤ m ∧ m ≤ 12 ∧ 1 ≤ d ∧ d ≤ 31 then some ⟨y, m, d⟩ else none

/-- Parse `[years, months, days]` fields (ISO order). -/
def parseYMD (parts : List (List Char)) : Option Date :=
  match parts with
  | [ys, ms, ds] =>
    match charsToNat? ys, charsToNat? ms, charsToNat? ds with
    | some y, some m, some d => mkDate? y m d
    | _, _, _ => none
  | _ => none

/-- Parse `[months, days, years]` fields (US order). -/
def parseMDY (parts : List (List Char)) : Option Date :=
  match parts with
  | [ms, ds, ys] =>
    match charsToNat? ms, charsToNat? ds, charsToNat? ys with
    | some m, some d, some y => mkDate? y m d
    | _, _, _ => none
  | _ => none

/-- Modelled date parsing: try `YYYY-MM-DD`, else `MM/DD/YYYY`. -/
def parseDateChars (cs : List Char) : Option Date :=
  if (splitOnChar '-' cs).length = 3 then parseYMD (splitOnChar '-' cs)
  else parseMDY (splitOnChar '/' cs)

/-- Zero-padded two-digit rendering (`%m` / `%d` of `strftime`). -/
def pad2 (n : Nat) : List Char :=
  if n < 10 then '0' :: natToChars n else natToChars n

/-- `strftime("%m/%d/%Y")` as a character list. -/
def formatDateChars (dt : Date) : List Char :=
  pad2 dt.m ++ '/' :: (pad2 dt.d ++ '/' :: natToChars dt.y)

/-- `strftime("%m/%d/%Y")` as a string. -/
def formatDate (dt : Date) : String := ⟨formatDateChars dt⟩

/-- Model of `pd.to_datetime(·, errors="coerce")` applied to one cell:
text is parsed, everything else (nulls, numbers) coerces to `NaT`
(`none`). -/
def toDatetime : Value → Option Date
  | Value.str s => parseDateChars s.data
  | _ => none

/-- One cell of the date-formatting step
`pd.to_datetime(...).dt.strftime("%m/%d/%Y").fillna("")`: a parsed date
becomes its `MM/DD/YYYY` text, a coercion failure becomes `""`. -/
def formatCell (v : Value) : Value :=
  match toDatetime v with
  | some dt => Value.str (formatDate dt)
  | none => Value.str ""

/-! ## The column cleaner

`clean_and_format_df(df, omissions)` from `automap_import.py`:

```
df = df.drop(columns=[c for c in df.columns if "recid" in c.lower()], errors="ignore")
df = df.drop(columns=[c for c in omissions if c in df.columns], errors="ignore")
invalid = [0, "0", "0.0", "", " ", None, "NULL", "null"]
df = df.loc[:, ~(df.isin(invalid)).all(axis=0)]
for col in df.columns:
    if "date" in col.lower():
        try:
            df[col] = (pd.to_datetime(df[col], errors="coerce")
                       .dt.strftime("%m/%d/%Y").fillna(""))
        except Exception: pass
```

The `try`/`except` never fires in the model because the modelled
`to_datetime` is total (`errors="coerce"` coerces failures to `NaT`). -/

/-- The date-formatting pass applied to one column: columns whose name
contains "date" get every cell reformatted, others pass unchanged. -/
def fmtCol (c : Column) : Column :=
  if dateName c.name then ⟨c.name, c.values.map formatCell⟩ else c

/-- The column cleaner `clean_and_format_df` of `automap_import.py`. -/
def clean_and_format_df (df : Table) (omissions : List String) : Table :=
  let d1 := df.filter fun c => !(recidName c.name)
  let d2 := d1.filter fun c => !(omissions.contains c.name)
  let d3 := d2.filter fun c => !(c.values.all invalidVal)
  d3.map fmtCol

/-! ## The merged Properties & Insurance sheet

`run_export` builds sheet 4 as:

```
p_clean = clean_and_format_df(p_raw.drop(columns=["Account", "_pid"]), omissions)
p_clean.columns = [f"Property: {c}" for c in p_clean.columns]
p_clean["Account"] = p_raw["Account"]
p_clean["_pid"] = p_raw["_pid"]
i_clean = clean_and_format_df(i_raw, omissions)
i_clean.columns = [f"Insurance: {c}" for c in i_clean.columns]
i_clean["_pref"] = i_raw["PropRecID"]
df4 = pd.merge(p_clean, i_clean, left_on="_pid", right_on="_pref", how="left")
        .drop(columns=["_pid", "_pref"])
```

The pandas left merge is embedded through an explicit pair list: one
`(i, some j)` per matching left/right row pair in left-major order, and
one `(i, none)` for each left row without a match.  Key matching is
plain value equality: pandas factorizes merge keys so that `NaN`/`None`
keys match each other, just like any other value (unlike SQL joins). -/

/-- `df[name]`: the values of the first column called `name` (missing
columns give an empty column). -/
def getCol (t : Table) (name : String) : List Value :=
  match t.find? fun c => c.name = name with
  | some c => c.values
  | none => []

/-- `df.drop(columns=names)` — keep the columns whose name is not
listed. -/
def dropCols (t : Table) (names : List String) : Table :=
  t.filter fun c => !(names.contains c.name)

/-- `[f"{p}{c}" for c in df.columns]` — put an entity label in front of
every column name. -/
def tagCols (p : String) (t : Table) : Table :=
  t.map fun c => ⟨p ++ c.name, c.values⟩

/-- The right-row indices whose key equals `k`.  Equality is plain
value equality, null included: pandas `merge` matches `NaN`/`None` keys
with each other. -/
def matchesOf (rkeys : List Value) (k : Value) : List Nat :=
  (List.range rkeys.length).filter fun j =>
    rkeys.getD j Value.null == k

/-- The output pairs a single left row `i` with key `k` contributes to a
left merge. -/
def rowPairs (rkeys : List Value) (k : Value) (i : Nat) : List (Nat × Option Nat) :=
  if (matchesOf rkeys k).isEmpty then [(i, none)]
  else (matchesOf rkeys k).map fun j => (i, some j)

/-- All output pairs of a left merge, walking the left keys from row
index `start`. -/
def mergePairsAux (rkeys : List Value) : List Value → Nat → List (Nat × Option Nat)
  | [], _ => []
  | k :: rest, start => rowPairs rkeys k start ++ mergePairsAux rkeys rest (start + 1)

/-- The output pairs of `pd.merge(..., how="left")`. -/
def mergePairs (lkeys rkeys : List Value) : List (Nat × Option Nat) :=
  mergePairsAux rkeys lkeys 0

/-- A left-table column of the merge output: row `r` copies the value at
the originating left row. -/
def applyPairsLeft (pairs : List (Nat × Option Nat)) (vals : List Value) : List Value :=
  pairs.map fun p => vals.getD p.1 Value.null

/-- A right-table column of the merge output: row `r` copies the matched
right row, or is null when the left row had no match. -/
def applyPairsRight (pairs : List (Nat × Option Nat)) (vals : List Value) : List Value :=
  pairs.map fun p =>
    match p.2 with
    | some j => vals.getD j Value.null
    | none => Value.null

/-- `pd.merge(L, R, left_on=lk, right_on=rk, how="left")`: left columns
then right columns, rows given by the merge pairs. -/
def mergeLeft (L R : Table) (lk rk : String) : Table :=
  (L.map fun c => ⟨c.name, applyPairsLeft (mergePairs (getCol L lk) (getCol R rk)) c.values⟩) ++
  (R.map fun c => ⟨c.name, applyPairsRight (mergePairs (getCol L lk) (getCol R rk)) c.values⟩)

/-- The cleaned, `Property: `-tagged property table with the `Account`
and `_pid` columns appended back from the raw query result. -/
def build_p_clean (p_raw : Table) (omissions : List String) : Table :=
  tagCols "Property: " (clean_and_format_df (dropCols p_raw ["Account", "_pid"]) omissions) ++
  [⟨"Account", getCol p_raw "Account"⟩, ⟨"_pid", getCol p_raw "_pid"⟩]

/-- The cleaned, `Insurance: `-tagged insurance table with the `_pref`
linkage column appended from the raw `PropRecID` values. -/
def build_i_clean (i_raw : Table) (omissions : List String) : Table :=
  tagCols "Insurance: " (clean_and_format_df i_raw omissions) ++
  [⟨"_pref", getCol i_raw "PropRecID"⟩]

/-- The merge pairs used for sheet 4. -/
def df4Pairs (p_raw i_raw : Table) (omissions : List String) : List (Nat × Option Nat) :=
  mergePairs (getCol (build_p_clean p_raw omissions) "_pid")
    (getCol (build_i_clean i_raw omissions) "_pref")

/-- Sheet 4, `4-Properties_&_Insurance`: the left merge of the tagged
cleaned tables with both linkage columns dropped. -/
def build_df4 (p_raw i_raw : Table) (omissions : List String) : Table :=
  dropCols
    (mergeLeft (build_p_clean p_raw omissions) (build_i_clean i_raw omissions) "_pid" "_pref")
    ["_pid", "_pref"]

/-- `"Property: "` at the front of a column name. -/
def propTagged (s : String) : Bool := "Property: ".data.isPrefixOf s.data

/-- `"Insurance: "` at the front of a column name. -/
def insTagged (s : String) : Bool := "Insurance: ".data.isPrefixOf s.data

/-! ## The field-definition scraper

`get_field_definitions(url)` fetches a help page and walks its `<tr>`
rows; a row with at least two cells contributes
`defs[key cell text] = description cell text` where the description
cell's line structure (`<br>`, `<p>`, `<li>` boundaries) is kept, each
line is stripped, and blank lines are dropped.

HTTP and HTML parsing are external services: the model receives the
fetched document as an `Except` value carrying, on success, the table
rows as lists of cells, each cell being its text already cut at the
line-break boundaries the HTML expressed.  Any network, timeout, or
parse failure of the fetch is the `Except.error` case.  The whole body
runs inside `try: ... except Exception: pass`, so the Python function
never raises; the model is accordingly total. -/

/-- One table cell of the fetched help page: its text, cut at
line-break/paragraph/list-item boundaries. -/
abbrev HtmlCell := List String

/-- `cells[0].get_text(strip=True)` — the key cell's text, concatenated
and stripped. -/
def keyOfCell (c : HtmlCell) : String :=
  String.intercalate "" (c.map String.trim)

/-- The description cell's text: strip each line, drop blanks, rejoin
with newlines (preserving the line breaks of the source HTML). -/
def descOfCell (c : HtmlCell) : String :=
  String.intercalate "\n" ((c.map String.trim).filter fun l => !(l == ""))

/-- Python `dict` assignment `defs[k] = v` on an association list. -/
def upsert (defs : List (String × String)) (k v : String) : List (String × String) :=
  if defs.any fun p => p.1 == k then
    defs.map fun p => if p.1 == k then (k, v) else p
  else defs ++ [(k, v)]

/-- `get_field_definitions` over a fetched document: absent or empty
URLs and failed fetches give the empty map, otherwise each row with two
or more cells defines one field. -/
def get_field_definitions (url : Option String)
    (fetch : Except String (List (List HtmlCell))) : List (String × String) :=
  match url with
  | none => []
  | some u =>
    if u = "" then []
    else
      match fetch with
      | Except.error _ => []
      | Except.ok rows =>
        rows.foldl
          (fun defs row =>
            match row with
            | key :: desc :: _ => upsert defs (keyOfCell key) (descOfCell desc)
            | _ => defs)
          []

/-! ## Header annotation

After a sheet is written, its header row is walked and every cell whose
text keys into the sheet's field-definition map receives the mapped
description as a cell comment.  Writing the workbook is external; the
annotation logic — which header gets which comment text — is the
repository's, modelled as the comment (or `none`) per header position.

The two variants differ here: `run_production_export` (part_000) strips
the entity labels `"Property: "` and `"Insurance: "` from the header
before the lookup, while `run_export` (automap_import.py) looks the
header text up as-is in its `export()` helper and writes sheet 4
(`df4.to_excel(path, index=False)`) without any comment pass at all. -/

/-- Python `str.replace(pat, rep)` (all occurrences, left to right) on
character lists, with fuel for structural recursion (`fuel ≥ s.length`
suffices). -/
def replaceSeqAux (pat rep : List Char) : Nat → List Char → List Char
  | 0, s => s
  | fuel + 1, s =>
    match s with
    | [] => []
    | x :: xs =>
      if pat.isPrefixOf s && !pat.isEmpty then
        rep ++ replaceSeqAux pat rep fuel (s.drop pat.length)
      else
        x :: replaceSeqAux pat rep fuel xs

/-- Python `str.replace(pat, rep)` on strings. -/
def strReplace (s pat rep : String) : String :=
  ⟨replaceSeqAux pat.data rep.data s.data.length s.data⟩

/-- `str(cell.value).replace("Property: ", "").replace("Insurance: ", "")`
— the entity-label stripping of `run_production_export`. -/
def stripEntity (s : String) : String :=
  strReplace (strReplace s "Property: " "") "Insurance: " ""

/-- First-match lookup in a field-definition map. -/
def lookupDef (defs : List (String × String)) (k : String) : Option String :=
  match defs.find? fun p => p.1 = k with
  | some p => some p.2
  | none => none

/-- Header comments as written by `run_production_export` (part_000):
strip the entity labels, then look the text up in the sheet's map. -/
def annotate_production (headers : List String) (defs : List (String × String)) :
    List (Option String) :=
  headers.map fun h => lookupDef defs (stripEntity h)

/-- Header comments as written by the `export()` helper of `run_export`
(automap_import.py): the header text is looked up verbatim. -/
def annotate_automap (headers : List String) (defs : List (String × String)) :
    List (Option String) :=
  headers.map fun h => lookupDef defs h

/-- Header comments on sheet 4 of `run_export` (automap_import.py): the
merged table is written by `df4.to_excel(path, index=False)` with no
comment pass, so no header carries a comment. -/
def annotate_automap_sheet4 (headers : List String) : List (Option String) :=
  headers.map fun _ => none

/-! ## Export orchestration

`run_export(server, database, folder, log, set_status)` wraps the whole
pipeline in one `try`/`except` whose handler shows a single error dialog
with `str(e)`.  The effectful steps — connecting, querying, cleaning,
writing each sheet's file — are external actions; the model receives
each step's outcome and replays the control flow: the connection first,
then each sheet in order, where a sheet that succeeds leaves its written
file and a sheet that raises stops everything after it.  The model
returns the files on disk and the list of error messages shown. -/

/-- Process the sheets in order: each `Except.ok` sheet appends its
file; the first `Except.error` aborts the rest. -/
def runSheets : List (String × Except String Unit) → List String × Option String
  | [] => ([], none)
  | (name, Except.ok _) :: rest =>
    let r := runSheets rest
    (name :: r.1, r.2)
  | (_, Except.error m) :: _ => ([], some m)

/-- The `try`/`except` shell of `run_export`: a connection failure or
the first failing sheet ends the run with exactly the one error dialog
`str(e)`; files of earlier sheets stay on disk. -/
def runExportModel (conn : Except String Unit)
    (sheets : List (String × Except String Unit)) : List String × List String :=
  match conn with
  | Except.error m => ([], [m])
  | Except.ok _ =>
    let r := runSheets sheets
    (r.1, match r.2 with
          | some m => [m]
          | none => [])

/-! ## Structural lemmas -/

theorem ofDigits_natDigitsAux (fuel n : Nat) (h : n ≤ fuel) :
    Nat.ofDigits 10 (natDigitsAux fuel n) = n := by
  induction fuel generalizing n with
  | zero =>
    interval_cases n
    simp [natDigitsAux, Nat.ofDigits]
  | succ fuel ih =>
    cases n with
    | zero => simp [natDigitsAux, Nat.ofDigits]
    | succ k =>
      have hle : (k + 1) / 10 ≤ fuel := by omega
      simp only [natDigitsAux, Nat.ofDigits_cons, ih _ hle]
      omega

theorem natDigitsAux_lt (fuel n : Nat) : ∀ d ∈ natDigitsAux fuel n, d < 10 := by
  induction fuel generalizing n with
  | zero => simp [natDigitsAux]
  | succ fuel ih =>
    cases n with
    | zero => simp [natDigitsAux]
    | succ k =>
      intro d hd
      simp only [natDigitsAux, List.mem_cons] at hd
      rcases hd with h | h
      · omega
      · exact ih _ d h

theorem natDigitsAux_ne_nil (fuel n : Nat) (h1 : 0 < n) (h2 : n ≤ fuel) :
    natDigitsAux fuel n ≠ [] := by
  cases fuel with
  | zero => omega
  | succ f =>
    cases n with
    | zero => omega
    | succ k => simp [natDigitsAux]

theorem digitChar_isDigit (d : Nat) (h : d < 10) :
    (digitChar d).isDigit = true := by
  interval_cases d <;> decide

theorem digitChar_toNat (d : Nat) (h : d < 10) :
    (digitChar d).toNat - 48 = d := by
  interval_cases d <;> decide

theorem digitChar_ne_slash (d : Nat) (h : d < 10) : digitChar d ≠ '/' := by
  interval_cases d <;> decide

theorem digitChar_ne_dash (d : Nat) (h : d < 10) : digitChar d ≠ '-' := by
  interval_cases d <;> decide

theorem natToChars_ne_nil (n : Nat) : natToChars n ≠ [] := by
  unfold natToChars
  split
  · simp
  · rename_i h
    have hne := natDigitsAux_ne_nil n n (by omega) (le_refl n)
    intro hc
    exact hne (List.reverse_eq_nil_iff.mp (List.map_eq_nil_iff.mp hc))

theorem natToChars_digits (n : Nat) : ∀ c ∈ natToChars n, c.isDigit = true := by
  intro c hc
  unfold natToChars at hc
  split at hc
  · simp at hc
    simp [hc]
  · rcases List.mem_map.mp hc with ⟨d, hd, rfl⟩
    exact digitChar_isDigit d (natDigitsAux_lt n n d (List.mem_reverse.mp hd))

theorem charsToNat?_natToChars (n : Nat) : charsToNat? (natToChars n) = some n := by
  by_cases h0 : n = 0
  · subst h0; decide
  · have hne := natToChars_ne_nil n
    have hdig := natToChars_digits n
    unfold charsToNat?
    rw [if_neg (by simpa [List.isEmpty_iff] using hne),
        if_pos (List.all_eq_true.mpr (fun c hc => hdig c hc))]
    unfold natToChars
    rw [if_neg h0]
    congr 1
    rw [List.map_map]
    have hmc : (natDigitsAux n n).reverse.map ((fun ch => Char.toNat ch - 48) ∘ digitChar) =
        (natDigitsAux n n).reverse.map id :=
      List.map_congr_left (fun d hd =>
        digitChar_toNat d (natDigitsAux_lt n n d (List.mem_reverse.mp hd)))
    rw [hmc, List.map_id, List.reverse_reverse, ofDigits_natDigitsAux n n (le_refl n)]

theorem splitOnChar_not_mem {c : Char} {cs : List Char} (h : c ∉ cs) :
    splitOnChar c cs = [cs] := by
  induction cs with
  | nil => rfl
  | cons x xs ih =>
    have hx : x ≠ c := fun hc => h (hc ▸ List.mem_cons_self x xs)
    have hxs : c ∉ xs := fun hc => h (List.mem_cons_of_mem x hc)
    simp only [splitOnChar, if_neg hx, ih hxs]

theorem splitOnChar_append {c : Char} {xs : List Char} (ys : List Char)
    (h : c ∉ xs) : splitOnChar c (xs ++ c :: ys) = xs :: splitOnChar c ys := by
  induction xs with
  | nil => simp [splitOnChar]
  | cons a as ih =>
    have ha : a ≠ c := fun hc => h (hc ▸ List.mem_cons_self a as)
    have has : c ∉ as := fun hc => h (List.mem_cons_of_mem a hc)
    have hrec := ih has
    simp only [List.cons_append, splitOnChar, if_neg ha]
    rw [show List.append as (c :: ys) = as ++ c :: ys from rfl, hrec]

theorem pad2_digits (n : Nat) : ∀ ch ∈ pad2 n, ch.isDigit = true := by
  intro ch hch
  unfold pad2 at hch
  split at hch
  · rcases List.mem_cons.mp hch with h | h
    · simp [h]
    · exact natToChars_digits n ch h
  · exact natToChars_digits n ch hch

theorem pad2_ne_nil (n : Nat) : pad2 n ≠ [] := by
  unfold pad2
  split
  · simp
  · exact natToChars_ne_nil n

theorem slash_not_mem_pad2 (n : Nat) : '/' ∉ pad2 n := by
  intro h
  have := pad2_digits n '/' h
  simp [Char.isDigit] at this

theorem slash_not_mem_natToChars (n : Nat) : '/' ∉ natToChars n := by
  intro h
  have := natToChars_digits n '/' h
  simp [Char.isDigit] at this

theorem dash_not_mem_formatDateChars (dt : Date) : '-' ∉ formatDateChars dt := by
  intro h
  unfold formatDateChars at h
  have hdig : ∀ ch ∈ formatDateChars dt, ch.isDigit = true ∨ ch = '/' := by
    intro ch hch
    unfold formatDateChars at hch
    rcases List.mem_append.mp hch with h1 | h1
    · exact Or.inl (pad2_digits _ ch h1)
    · rcases List.mem_cons.mp h1 with h2 | h2
      · exact Or.inr h2
      · rcases List.mem_append.mp h2 with h3 | h3
        · exact Or.inl (pad2_digits _ ch h3)
        · rcases List.mem_cons.mp h3 with h4 | h4
          · exact Or.inr h4
          · exact Or.inl (natToChars_digits _ ch h4)
  rcases hdig '-' (by unfold formatDateChars; exact h) with hd | hd
  · simp [Char.isDigit] at hd
  · exact absurd hd (by decide)

theorem charsToNat?_cons_zero {cs : List Char} (h : cs ≠ []) :
    charsToNat? ('0' :: cs) = charsToNat? cs := by
  unfold charsToNat?
  have h0 : ('0' :: cs).isEmpty = false := rfl
  have h1 : cs.isEmpty = false := by simpa [List.isEmpty_iff] using h
  have hall : ('0' :: cs).all Char.isDigit = cs.all Char.isDigit := by
    simp [List.all_cons]
  rw [h0, h1, hall]
  simp only [Bool.false_eq_true, if_false]
  by_cases hd : cs.all Char.isDigit
  · rw [if_pos hd, if_pos hd]
    congr 1
    have hz : '0'.toNat - 48 = 0 := rfl
    simp only [List.map_cons, List.reverse_cons, hz]
    rw [Nat.ofDigits_append]
    simp [Nat.ofDigits_cons, Nat.ofDigits_nil]
  · rw [if_neg hd, if_neg hd]

theorem charsToNat?_pad2 (n : Nat) : charsToNat? (pad2 n) = some n := by
  unfold pad2
  split
  · rw [charsToNat?_cons_zero (natToChars_ne_nil n), charsToNat?_natToChars]
  · exact charsToNat?_natToChars n

theorem parseMDY_cons (ms ds ys : List Char) {m d y : Nat}
    (hm : charsToNat? ms = some m) (hd : charsToNat? ds = some d)
    (hy : charsToNat? ys = some y) :
    parseMDY [ms, ds, ys] = mkDate? y m d := by
  simp only [parseMDY]
  rw [hm, hd, hy]

/-- The round trip at the heart of cleaning-stability: the pipeline's own
`MM/DD/YYYY` output re-parses to the same date. -/
theorem parseDateChars_formatDateChars (dt : Date) (h : validDate dt) :
    parseDateChars (formatDateChars dt) = some dt := by
  have hsplit1 : splitOnChar '-' (formatDateChars dt) = [formatDateChars dt] :=
    splitOnChar_not_mem (dash_not_mem_formatDateChars dt)
  have hsplit2 : splitOnChar '/' (formatDateChars dt) =
      [pad2 dt.m, pad2 dt.d, natToChars dt.y] := by
    unfold formatDateChars
    rw [splitOnChar_append _ (slash_not_mem_pad2 dt.m),
        splitOnChar_append _ (slash_not_mem_pad2 dt.d),
        splitOnChar_not_mem (slash_not_mem_natToChars dt.y)]
  have hlen : ¬ (splitOnChar '-' (formatDateChars dt)).length = 3 := by
    rw [hsplit1]; simp
  unfold parseDateChars
  rw [if_neg hlen, hsplit2,
      parseMDY_cons _ _ _ (charsToNat?_pad2 dt.m) (charsToNat?_pad2 dt.d)
        (charsToNat?_natToChars dt.y)]
  have h' : 1 ≤ dt.m ∧ dt.m ≤ 12 ∧ 1 ≤ dt.d ∧ dt.d ≤ 31 := h
  unfold mkDate?
  rw [if_pos h']

theorem validDate_of_mkDate? {y m d : Nat} {dt : Date}
    (h : mkDate? y m d = some dt) : validDate dt := by
  unfold mkDate? at h
  split at h
  · cases h
    exact ‹1 ≤ m ∧ m ≤ 12 ∧ 1 ≤ d ∧ d ≤ 31›
  · cases h

theorem validDate_of_parseYMD {parts : List (List Char)} {dt : Date}
    (h : parseYMD parts = some dt) : validDate dt := by
  unfold parseYMD at h
  split at h
  · split at h <;> first
      | exact validDate_of_mkDate? h
      | exact Option.noConfusion h
  · exact Option.noConfusion h

theorem validDate_of_parseMDY {parts : List (List Char)} {dt : Date}
    (h : parseMDY parts = some dt) : validDate dt := by
  unfold parseMDY at h
  split at h
  · split at h <;> first
      | exact validDate_of_mkDate? h
      | exact Option.noConfusion h
  · exact Option.noConfusion h

theorem validDate_of_parseDateChars {cs : List Char} {dt : Date}
    (h : parseDateChars cs = some dt) : validDate dt := by
  unfold parseDateChars at h
  split at h
  · exact validDate_of_parseYMD h
  · exact validDate_of_parseMDY h

theorem validDate_of_toDatetime {v : Value} {dt : Date}
    (h : toDatetime v = some dt) : validDate dt := by
  cases v with
  | str s => exact validDate_of_parseDateChars h
  | int n => cases h
  | null => cases h

theorem toDatetime_formatDate (dt : Date) (h : validDate dt) :
    toDatetime (Value.str (formatDate dt)) = some dt := by
  unfold toDatetime formatDate
  exact parseDateChars_formatDateChars dt h

/-- The per-cell date step is stable: formatting a formatted cell leaves
it unchanged. -/
theorem formatCell_formatCell (v : Value) :
    formatCell (formatCell v) = formatCell v := by
  unfold formatCell
  cases hv : toDatetime v with
  | none => rfl
  | some dt =>
    rw [toDatetime_formatDate dt (validDate_of_toDatetime hv)]

theorem fmtCol_name (c : Column) : (fmtCol c).name = c.name := by
  unfold fmtCol
  split <;> rfl

theorem fmtCol_length (c : Column) : (fmtCol c).values.length = c.values.length := by
  unfold fmtCol
  split <;> simp

theorem fmtCol_fmtCol (c : Column) : fmtCol (fmtCol c) = fmtCol c := by
  unfold fmtCol
  split
  · simp only [Column.mk.injEq, true_and, List.map_map]
    exact List.map_congr_left fun v _ => formatCell_formatCell v
  · rfl

/-- Unpacking membership in the cleaner's output: every output column is
the date-pass image of an input column that survived all three drops. -/
theorem mem_clean_and_format_df {df : Table} {omissions : List String} {c : Column}
    (h : c ∈ clean_and_format_df df omissions) :
    ∃ c₀ ∈ df, c = fmtCol c₀ ∧ recidName c₀.name = false ∧
      omissions.contains c₀.name = false ∧ c₀.values.all invalidVal = false := by
  unfold clean_and_format_df at h
  rcases List.mem_map.mp h with ⟨c₀, hc₀, rfl⟩
  have h3 := List.of_mem_filter hc₀
  have hc₂ := List.mem_of_mem_filter hc₀
  have h2 := List.of_mem_filter hc₂
  have hc₁ := List.mem_of_mem_filter hc₂
  have h1 := List.of_mem_filter hc₁
  have hdf := List.mem_of_mem_filter hc₁
  refine ⟨c₀, hdf, rfl, ?_, ?_, ?_⟩
  · simpa using h1
  · simpa using h2
  · simpa using h3

/-- A formatted date string is at least five characters long. -/
theorem formatDateChars_length (dt : Date) : 5 ≤ (formatDateChars dt).length := by
  unfold formatDateChars
  have h1 : 1 ≤ (pad2 dt.m).length := List.length_pos.mpr (pad2_ne_nil dt.m)
  have h2 : 1 ≤ (pad2 dt.d).length := List.length_pos.mpr (pad2_ne_nil dt.d)
  have h3 : 1 ≤ (natToChars dt.y).length := List.length_pos.mpr (natToChars_ne_nil dt.y)
  simp only [List.length_append, List.length_cons]
  omega

/-- String equality seen through the character-list representation. -/
theorem string_eq_iff_data {s t : String} : s = t ↔ s.data = t.data := by
  constructor
  · intro h; rw [h]
  · intro h
    cases s with | mk ds =>
    cases t with | mk dts =>
    exact congrArg String.mk h

/-- `invalidVal v = false` exactly when `v` avoids the `invalid` list. -/
theorem invalidVal_eq_false_iff (v : Value) :
    invalidVal v = false ↔ v ∉ invalidList := by
  unfold invalidVal
  simp

/-- No string of five or more characters is in the `invalid` list. -/
theorem invalidVal_long_str_false {cs : List Char} (h : 5 ≤ cs.length) :
    invalidVal (Value.str ⟨cs⟩) = false := by
  rw [invalidVal_eq_false_iff]
  have hne : ∀ t : String, t.data.length ≤ 4 → Value.str ⟨cs⟩ ≠ Value.str t := by
    intro t ht hc
    injection hc with heq
    have hd : cs = t.data := string_eq_iff_data.mp heq
    rw [hd] at h
    omega
  intro hmem
  unfold invalidList at hmem
  simp only [List.mem_cons, List.not_mem_nil, or_false] at hmem
  rcases hmem with h1 | h1 | h1 | h1 | h1 | h1 | h1 | h1 <;>
    first
      | exact Value.noConfusion h1
      | exact hne "0" (by decide) h1
      | exact hne "0.0" (by decide) h1
      | exact hne "" (by decide) h1
      | exact hne " " (by decide) h1
      | exact hne "NULL" (by decide) h1
      | exact hne "null" (by decide) h1

/-- A formatted date value is never `invalid`. -/
theorem invalidVal_formatDate (dt : Date) :
    invalidVal (Value.str (formatDate dt)) = false :=
  invalidVal_long_str_false (formatDateChars_length dt)


theorem fmtCol_eq_self {c : Column} (h : dateName c.name = false) : fmtCol c = c := by
  unfold fmtCol
  rw [if_neg (by simp [h])]

theorem fmtCol_values_date {c : Column} (h : dateName c.name = true) :
    (fmtCol c).values = c.values.map formatCell := by
  unfold fmtCol
  rw [if_pos h]

theorem all_eq_false_of_mem {α : Type} {l : List α} {p : α → Bool} {x : α}
    (hx : x ∈ l) (hpx : p x = false) : l.all p = false := by
  rw [← Bool.not_eq_true, List.all_eq_true]
  push_neg
  exact ⟨x, hx, by simp [hpx]⟩

theorem exists_false_of_all_eq_false {α : Type} {l : List α} {p : α → Bool}
    (h : l.all p = false) : ∃ x ∈ l, p x = false := by
  rw [← Bool.not_eq_true, List.all_eq_true] at h
  push_neg at h
  rcases h with ⟨x, hx, hpx⟩
  exact ⟨x, hx, by simpa using hpx⟩

/-! ## Claim C1 — idempotence of cleaning -/

/-- C1, counterexample.  Cleaning is not idempotent: a date-named column
whose single value `"abc"` is not in the `invalid` list survives the
uniform-invalid drop, is then rewritten to `""` by the date pass, and is
dropped only by a second application of the cleaner. -/
theorem C1_counterexample :
    clean_and_format_df (clean_and_format_df [⟨"SomeDate", [Value.str "abc"]⟩] []) [] ≠
      clean_and_format_df [⟨"SomeDate", [Value.str "abc"]⟩] [] := by decide

/-- C1, amended.  Cleaning is idempotent on every table whose cleaned
output has no date-named column consisting entirely of empty strings —
equivalently, whenever each surviving date-named column kept at least
one parseable value. -/
theorem C1_cleaning_idempotent_without_blank_date_columns (df : Table) (om : List String)
    (h : ∀ c ∈ clean_and_format_df df om, dateName c.name = true →
      c.values.all (fun v => v == Value.str "") = false) :
    clean_and_format_df (clean_and_format_df df om) om =
      clean_and_format_df df om := by
  have h1 : ∀ c ∈ clean_and_format_df df om, (!(recidName c.name)) = true := by
    intro c hc
    rcases mem_clean_and_format_df hc with ⟨c₀, _, rfl, hrec, _, _⟩
    simp [fmtCol_name, hrec]
  have h2 : ∀ c ∈ clean_and_format_df df om, (!(om.contains c.name)) = true := by
    intro c hc
    rcases mem_clean_and_format_df hc with ⟨c₀, _, rfl, _, homs, _⟩
    have hnm : c₀.name ∉ om := by simpa using homs
    simp [fmtCol_name, hnm]
  have h3 : ∀ c ∈ clean_and_format_df df om, (!(c.values.all invalidVal)) = true := by
    intro c hc
    rcases mem_clean_and_format_df hc with ⟨c₀, _, rfl, _, _, hinv⟩
    by_cases hd : dateName c₀.name = true
    · have hall := h _ hc (by rw [fmtCol_name]; exact hd)
      rcases exists_false_of_all_eq_false hall with ⟨v, hvmem, hvfalse⟩
      have hinvv : invalidVal v = false := by
        rw [fmtCol_values_date hd] at hvmem
        rcases List.mem_map.mp hvmem with ⟨w, _, rfl⟩
        cases htd : toDatetime w with
        | none => simp [formatCell, htd] at hvfalse
        | some dt =>
          have : formatCell w = Value.str (formatDate dt) := by
            unfold formatCell; rw [htd]
          rw [this]
          exact invalidVal_formatDate dt
      simp only [Bool.not_eq_true']
      exact all_eq_false_of_mem hvmem hinvv
    · have hd' : dateName c₀.name = false := by
        cases hdx : dateName c₀.name
        · rfl
        · exact absurd hdx hd
      rw [fmtCol_eq_self hd']
      simp [hinv]
  have h4 : ∀ c ∈ clean_and_format_df df om, fmtCol c = c := by
    intro c hc
    rcases mem_clean_and_format_df hc with ⟨c₀, _, rfl, _, _, _⟩
    exact fmtCol_fmtCol c₀
  calc clean_and_format_df (clean_and_format_df df om) om
      = ((((clean_and_format_df df om).filter fun c => !(recidName c.name)).filter
          fun c => !(om.contains c.name)).filter
          fun c => !(c.values.all invalidVal)).map fmtCol := rfl
    _ = (clean_and_format_df df om).map fmtCol := by
          rw [List.filter_eq_self.mpr h1, List.filter_eq_self.mpr h2,
              List.filter_eq_self.mpr h3]
    _ = (clean_and_format_df df om).map id := List.map_congr_left h4
    _ = clean_and_format_df df om := List.map_id _

/-- C1, witness: a date column with one parseable value satisfies the
hypothesis, and cleaning it twice equals cleaning it once. -/
theorem C1_witness :
    (∀ c ∈ clean_and_format_df [⟨"CloseDate", [Value.str "2024-03-15"]⟩] [],
      dateName c.name = true → c.values.all (fun v => v == Value.str "") = false) ∧
    clean_and_format_df (clean_and_format_df [⟨"CloseDate", [Value.str "2024-03-15"]⟩] []) [] =
      clean_and_format_df [⟨"CloseDate", [Value.str "2024-03-15"]⟩] [] :=
  ⟨by decide,
   C1_cleaning_idempotent_without_blank_date_columns _ [] (by decide)⟩

/-! ## Claim C2 — no surviving column is uniformly invalid -/

/-- C2, counterexample.  A date-named column whose only value is the
unparseable text `"not-a-date"` survives the uniform-invalid drop and is
then rewritten to `""` by the date pass, so the cleaned output contains
a column whose every value (`""`) lies in the invalid set. -/
theorem C2_counterexample :
    clean_and_format_df [⟨"PayoffDate", [Value.str "not-a-date"]⟩] [] =
      [⟨"PayoffDate", [Value.str ""]⟩] ∧
    [Value.str ""].all invalidVal = true := by decide

/-- C2, amended.  No cleaned column whose name lacks "date"
(case-insensitively) has every value in the invalid set
`{0, 0.0, "0", "0.0", "", " ", "NULL", "null", null}`; this holds for
any number of rows.  Date-named columns are exempt: the date pass runs
after the uniform-invalid drop and may leave an all-empty column. -/
theorem C2_no_nondate_column_all_invalid (df : Table) (om : List String) :
    ∀ c ∈ clean_and_format_df df om, dateName c.name = false →
      c.values.all invalidVal = false := by
  intro c hc hdate
  rcases mem_clean_and_format_df hc with ⟨c₀, _, rfl, _, _, hinv⟩
  rw [fmtCol_name] at hdate
  rw [fmtCol_eq_self hdate]
  exact hinv

/-- C2, witness: a single-row non-date column with a real value. -/
theorem C2_witness :
    (Column.mk "Account" [Value.str "L-100"] ∈
      clean_and_format_df ([⟨"Account", [Value.str "L-100"]⟩] : Table) []) ∧
    dateName "Account" = false ∧
    [Value.str "L-100"].all invalidVal = false :=
  ⟨by decide, by decide,
   C2_no_nondate_column_all_invalid [⟨"Account", [Value.str "L-100"]⟩] []
     ⟨"Account", [Value.str "L-100"]⟩ (by decide) (by decide)⟩

/-! ## Claim C3 — date columns never raise and format month/day/year -/

/-- C3, counterexample.  `automap_import.py` formats with
`strftime("%m/%d/%Y")`, which zero-pads: the example column cleans to
`["01/05/2024", "", ""]`, not to the claimed `["1/5/2024", "", ""]`. -/
theorem C3_counterexample :
    clean_and_format_df
        [⟨"CloseDate", [Value.str "2024-01-05", Value.str "not-a-date", Value.null]⟩] [] ≠
      [⟨"CloseDate", [Value.str "1/5/2024", Value.str "", Value.str ""]⟩] := by decide

/-- C3, amended.  Cleaning never raises on malformed date text (the
embedded cleaner is a total function; `errors="coerce"` turns parse
failures into `NaT` and the surrounding `try`/`except` swallows anything
else), and the date-like column `["2024-01-05", "not-a-date", None]`
cleans to `["01/05/2024", "", ""]` in `automap_import.py`'s zero-padded
`%m/%d/%Y` month/day/year format, every unparseable or null value
rendered as the empty string. -/
theorem C3_date_column_cleans_zero_padded :
    clean_and_format_df
        [⟨"CloseDate", [Value.str "2024-01-05", Value.str "not-a-date", Value.null]⟩] [] =
      [⟨"CloseDate", [Value.str "01/05/2024", Value.str "", Value.str ""]⟩] := by decide

/-! ## Claim C4 — recid columns are always dropped -/

/-- C4.  No column of the cleaned output has a name containing "recid"
(case-insensitively), whatever the column's content: the recid drop is
the first step and later steps never rename or add columns. -/
theorem C4_recid_columns_absent (df : Table) (om : List String) :
    ∀ c ∈ clean_and_format_df df om, recidName c.name = false := by
  intro c hc
  rcases mem_clean_and_format_df hc with ⟨c₀, _, rfl, hrec, _, _⟩
  rw [fmtCol_name]
  exact hrec

/-- C4, witness: a table holding a populated `LoanRecID` column cleans
to its `Account` column alone, and the survivor is recid-free. -/
theorem C4_witness :
    (Column.mk "Account" [Value.str "A"] ∈
      clean_and_format_df ([⟨"LoanRecID", [Value.int 7]⟩, ⟨"Account", [Value.str "A"]⟩] : Table) []) ∧
    recidName "Account" = false :=
  ⟨by decide, C4_recid_columns_absent
     [⟨"LoanRecID", [Value.int 7]⟩, ⟨"Account", [Value.str "A"]⟩] []
     ⟨"Account", [Value.str "A"]⟩ (by decide)⟩

/-! ## Claim C10 — zero-row tables clean to zero columns -/

/-- C10.  On a table with zero rows every column's `isin(invalid)` test
holds vacuously (`all` of an empty column is true), so every column that
survives the recid and omission drops is removed as well: the cleaned
output has no columns. -/
theorem C10_zero_row_table_cleans_to_no_columns (df : Table) (om : List String)
    (h : ∀ c ∈ df, c.values = []) :
    clean_and_format_df df om = [] := by
  show ((((df.filter fun c => !(recidName c.name)).filter
      fun c => !(om.contains c.name)).filter
      fun c => !(c.values.all invalidVal)).map fmtCol) = []
  have h3 : ∀ c ∈ (df.filter fun c => !(recidName c.name)).filter
      (fun c => !(om.contains c.name)), ¬ ((!(c.values.all invalidVal)) = true) := by
    intro c hc
    have hcdf : c ∈ df := List.mem_of_mem_filter (List.mem_of_mem_filter hc)
    rw [h c hcdf]
    simp
  rw [List.filter_eq_nil_iff.mpr h3]
  rfl

/-- C10, witness: a two-column table with zero rows cleans to the empty
table. -/
theorem C10_witness :
    (∀ c ∈ ([⟨"Account", []⟩, ⟨"Note", []⟩] : Table), c.values = []) ∧
    clean_and_format_df [⟨"Account", []⟩, ⟨"Note", []⟩] [] = [] :=
  ⟨by decide, C10_zero_row_table_cleans_to_no_columns _ [] (by decide)⟩

/-! ## Claim C7 — the scraper never raises and fails to an empty map -/

/-- C7.  `get_field_definitions` is a total function of the URL and the
fetched document (the Python body runs entirely inside
`try: ... except Exception: pass`, so no network, timeout, or parse
failure escapes to the caller), and every failure mode yields the empty
map: an absent URL, an empty URL (both short-circuit before any fetch,
whatever the fetch would have done), and any failed fetch. -/
theorem C7_scraper_never_raises_empty_on_failure :
    (∀ fetch : Except String (List (List HtmlCell)),
      get_field_definitions none fetch = []) ∧
    (∀ fetch : Except String (List (List HtmlCell)),
      get_field_definitions (some "") fetch = []) ∧
    (∀ (url : Option String) (e : String),
      get_field_definitions url (Except.error e) = []) := by
  refine ⟨fun fetch => rfl, fun fetch => rfl, fun url e => ?_⟩
  cases url with
  | none => rfl
  | some u =>
    simp only [get_field_definitions]
    by_cases hu : u = ""
    · rw [if_pos hu]
    · rw [if_neg hu]

/-! ## Claim C8 — failure policy of the export pipeline -/

/-- C8.  One `try`/`except` wraps the whole of `run_export`: if the
connection fails nothing is written and the single error dialog shows
the exception text; if any sheet's processing raises after `pre` sheets
succeeded, the remaining sheets are not processed, exactly one error
message — the exception's text itself — is surfaced, and exactly the
files of the already-completed sheets remain on disk. -/
theorem C8_single_failure_aborts_rest_keeps_files
    (pre post : List (String × Except String Unit)) (nm m : String)
    (hpre : ∀ s ∈ pre, s.2 = Except.ok ()) :
    runExportModel (Except.error m) (pre ++ (nm, Except.error m) :: post) = ([], [m]) ∧
    runExportModel (Except.ok ()) (pre ++ (nm, Except.error m) :: post) =
      (pre.map Prod.fst, [m]) := by
  constructor
  · rfl
  · have hsheets : runSheets (pre ++ (nm, Except.error m) :: post) =
        (pre.map Prod.fst, some m) := by
      induction pre with
      | nil => rfl
      | cons s rest ih =>
        have hs : s.2 = Except.ok () := hpre s (List.mem_cons_self s rest)
        have hrest : ∀ t ∈ rest, t.2 = Except.ok () :=
          fun t ht => hpre t (List.mem_cons_of_mem s ht)
        cases s with
        | mk sname sres =>
          simp only at hs
          subst hs
          simp only [List.cons_append, runSheets]
          rw [show List.append rest ((nm, Except.error m) :: post) =
              rest ++ (nm, Except.error m) :: post from rfl, ih hrest]
          rfl
    unfold runExportModel
    rw [hsheets]

/-- C8, witness: connection up, sheet "1-Loans" written, sheet
"2-Co-Borrowers" raises "query failed", sheet "3-Fundings" untouched:
only "1-Loans" is on disk and the one error message is the exception
text. -/
theorem C8_witness :
    runExportModel (Except.ok ())
        ([("1-Loans", Except.ok ())] ++
          ("2-Co-Borrowers", Except.error "query failed") ::
          [("3-Fundings", Except.ok ())]) =
      (["1-Loans"], ["query failed"]) :=
  (C8_single_failure_aborts_rest_keeps_files
    [("1-Loans", Except.ok ())] [("3-Fundings", Except.ok ())]
    "2-Co-Borrowers" "query failed"
    (by intro s hs; rcases List.mem_singleton.mp hs with rfl; rfl)).2

theorem getD_map {α β : Type} (l : List α) (f : α → β) (i : Nat) (d₁ : β) (d₂ : α)
    (h : i < l.length) : (l.map f).getD i d₁ = f (l.getD i d₂) := by
  rw [List.getD_eq_getElem _ d₁ (by simpa using h), List.getD_eq_getElem _ d₂ h]
  exact List.getElem_map _

/-! ## Claim C6 — field descriptions as header-cell comments -/

/-- C6, counterexample.  In `automap_import.py`'s `run_export` the
merged sheet is written by `df4.to_excel(path, index=False)` with no
comment pass: the header `"Property: Account"` strips to `"Account"`,
which keys into the field map, yet the cell carries no comment. -/
theorem C6_counterexample :
    stripEntity "Property: Account" = "Account" ∧
    lookupDef [("Account", "The loan account number")] "Account" =
      some "The loan account number" ∧
    annotate_automap_sheet4 ["Property: Account"] = [none] := by decide

/-- C6, amended.  In `run_production_export` (part_000) every header
cell whose entity-prefix-stripped text keys into the sheet's
field-definition map carries the map's description verbatim (line
breaks included, since the string is copied unchanged) as its comment.
In `automap_import.py`'s `run_export`, the three `export()` sheets
annotate only headers whose text matches a key with no stripping, and
the merged sheet is written without any comment pass. -/
theorem C6_header_comment_rules (hs : List String) (defs : List (String × String))
    (i : Nat) (d : String) (hi : i < hs.length) :
    (lookupDef defs (stripEntity (hs.getD i "")) = some d →
      (annotate_production hs defs).getD i none = some d) ∧
    (lookupDef defs (hs.getD i "") = some d →
      (annotate_automap hs defs).getD i none = some d) ∧
    (annotate_automap_sheet4 hs).getD i none = none := by
  refine ⟨?_, ?_, ?_⟩
  · intro hl
    unfold annotate_production
    rw [getD_map hs _ i none "" hi, hl]
  · intro hl
    unfold annotate_automap
    rw [getD_map hs _ i none "" hi, hl]
  · unfold annotate_automap_sheet4
    rw [getD_map hs _ i none "" hi]

/-- C6, witness: a tagged header and a multi-line description; the
production annotator attaches the description, line break intact. -/
theorem C6_witness :
    (annotate_production ["Property: InsAmount"]
        [("InsAmount", "Coverage\nAmount")]).getD 0 none =
      some "Coverage\nAmount" :=
  (C6_header_comment_rules ["Property: InsAmount"] [("InsAmount", "Coverage\nAmount")]
    0 "Coverage\nAmount" (by decide)).1 (by decide)

/-! ## Claim C9 — rows are never reordered -/

theorem rowPairs_fst (rkeys : List Value) (k : Value) (i : Nat) :
    ∀ a ∈ (rowPairs rkeys k i).map Prod.fst, a = i := by
  intro a ha
  unfold rowPairs at ha
  split at ha
  · simpa using ha
  · rcases List.mem_map.mp ha with ⟨p, hp, rfl⟩
    rcases List.mem_map.mp hp with ⟨j, _, rfl⟩
    rfl

theorem pairwise_le_of_const {l : List Nat} {i : Nat} (h : ∀ a ∈ l, a = i) :
    l.Pairwise (· ≤ ·) := by
  induction l with
  | nil => exact List.Pairwise.nil
  | cons x xs ih =>
    refine List.Pairwise.cons ?_ (ih fun a ha => h a (List.mem_cons_of_mem x ha))
    intro b hb
    rw [h x (List.mem_cons_self x xs), h b (List.mem_cons_of_mem x hb)]

theorem mergePairsAux_fst (rkeys : List Value) (lks : List Value) :
    ∀ s : Nat,
      (∀ a ∈ (mergePairsAux rkeys lks s).map Prod.fst, s ≤ a) ∧
      ((mergePairsAux rkeys lks s).map Prod.fst).Pairwise (· ≤ ·) := by
  induction lks with
  | nil =>
    intro s
    constructor <;> simp [mergePairsAux]
  | cons k rest ih =>
    intro s
    have ihs := ih (s + 1)
    constructor
    · intro a ha
      simp only [mergePairsAux, List.map_append, List.mem_append] at ha
      rcases ha with h | h
      · rw [rowPairs_fst rkeys k s a h]
      · have := ihs.1 a h
        omega
    · simp only [mergePairsAux, List.map_append]
      rw [List.pairwise_append]
      refine ⟨pairwise_le_of_const (rowPairs_fst rkeys k s), ihs.2, ?_⟩
      intro a ha b hb
      rw [rowPairs_fst rkeys k s a ha]
      have := ihs.1 b hb
      omega

/-- C9, counterexample.  Cleaning can change row content in place: a
date-named column keeps its name (no column added, removed, or renamed)
yet its cleaned row differs from the input row, so the cleaned table
does not have "the same rows" as the input. -/
theorem C9_counterexample :
    (clean_and_format_df [⟨"StartDate", [Value.str "2024-01-05"]⟩] []).map Column.name =
      ([⟨"StartDate", [Value.str "2024-01-05"]⟩] : Table).map Column.name ∧
    clean_and_format_df [⟨"StartDate", [Value.str "2024-01-05"]⟩] [] ≠
      [⟨"StartDate", [Value.str "2024-01-05"]⟩] := by decide

/-- C9, amended.  Rows are never reordered.  Every cleaned column keeps
its name, its row count, and its row positions: it is either an input
column unchanged or that column rewritten cell-by-cell by the date pass
(row `r` of the output always derives from row `r` of the input).  And
the merged sheet walks the property rows in query order: the origin row
indices of the merge output are non-decreasing. -/
theorem C9_row_order_preserved :
    (∀ (df : Table) (om : List String), ∀ c ∈ clean_and_format_df df om,
      ∃ c₀ ∈ df, c.name = c₀.name ∧ c.values.length = c₀.values.length ∧
        (c.values = c₀.values ∨ c.values = c₀.values.map formatCell)) ∧
    (∀ lkeys rkeys : List Value,
      ((mergePairs lkeys rkeys).map Prod.fst).Pairwise (· ≤ ·)) := by
  constructor
  · intro df om c hc
    rcases mem_clean_and_format_df hc with ⟨c₀, hdf, rfl, _, _, _⟩
    refine ⟨c₀, hdf, fmtCol_name c₀, fmtCol_length c₀, ?_⟩
    by_cases hd : dateName c₀.name = true
    · exact Or.inr (fmtCol_values_date hd)
    · have hd' : dateName c₀.name = false := by
        cases hdx : dateName c₀.name
        · rfl
        · exact absurd hdx hd
      exact Or.inl (by rw [fmtCol_eq_self hd'])
  · intro lkeys rkeys
    exact (mergePairsAux_fst rkeys lkeys 0).2

/-- C9, witness: a one-column table where the cleaned column is the
input column unchanged. -/
theorem C9_witness :
    ∃ c₀ ∈ ([⟨"Note", [Value.str "x"]⟩] : Table),
      (Column.mk "Note" [Value.str "x"]).name = c₀.name ∧
      (Column.mk "Note" [Value.str "x"]).values.length = c₀.values.length ∧
      ((Column.mk "Note" [Value.str "x"]).values = c₀.values ∨
        (Column.mk "Note" [Value.str "x"]).values = c₀.values.map formatCell) :=
  C9_row_order_preserved.1 [⟨"Note", [Value.str "x"]⟩] []
    ⟨"Note", [Value.str "x"]⟩ (by decide)

/-! ## Claim C5 — semantics of the merged sheet -/

theorem getD_mem {α : Type} (l : List α) (r : Nat) (d : α) (h : r < l.length) :
    l.getD r d ∈ l := by
  rw [List.getD_eq_getElem l d h]
  exact List.getElem_mem h

theorem mergePairsAux_filter (rkeys : List Value) (lks : List Value) :
    ∀ (s i : Nat), i < lks.length →
      (mergePairsAux rkeys lks s).filter (fun p => p.1 == s + i) =
        rowPairs rkeys (lks.getD i Value.null) (s + i) := by
  induction lks with
  | nil => intro s i hi; simp at hi
  | cons k rest ih =>
    intro s i hi
    simp only [mergePairsAux, List.filter_append]
    cases i with
    | zero =>
      rw [Nat.add_zero]
      have hblock : (rowPairs rkeys k s).filter (fun p => p.1 == s) =
          rowPairs rkeys k s := by
        apply List.filter_eq_self.mpr
        intro p hp
        have hps : p.1 = s :=
          rowPairs_fst rkeys k s p.1 (List.mem_map_of_mem Prod.fst hp)
        simp [hps]
      have hrec : (mergePairsAux rkeys rest (s + 1)).filter (fun p => p.1 == s) = [] := by
        apply List.filter_eq_nil_iff.mpr
        intro p hp
        have hge : s + 1 ≤ p.1 :=
          (mergePairsAux_fst rkeys rest (s + 1)).1 p.1 (List.mem_map_of_mem Prod.fst hp)
        simp only [beq_iff_eq]
        omega
      rw [hblock, hrec, List.append_nil]
      rfl
    | succ j =>
      have hblock : (rowPairs rkeys k s).filter (fun p => p.1 == s + (j + 1)) = [] := by
        apply List.filter_eq_nil_iff.mpr
        intro p hp
        have hps : p.1 = s :=
          rowPairs_fst rkeys k s p.1 (List.mem_map_of_mem Prod.fst hp)
        simp only [hps, beq_iff_eq]
        omega
      have hj : j < rest.length := by simpa using hi
      have hrec := ih (s + 1) j hj
      rw [hblock, List.nil_append,
          show s + (j + 1) = (s + 1) + j from by omega, hrec]
      rfl

theorem mergePairs_filter {lkeys rkeys : List Value} {i : Nat} (hi : i < lkeys.length) :
    (mergePairs lkeys rkeys).filter (fun p => p.1 == i) =
      rowPairs rkeys (lkeys.getD i Value.null) i := by
  have h := mergePairsAux_filter rkeys lkeys 0 i hi
  simpa using h

theorem rowPairs_of_no_match {rkeys : List Value} {k : Value} (i : Nat)
    (h : matchesOf rkeys k = []) : rowPairs rkeys k i = [(i, none)] := by
  unfold rowPairs
  rw [if_pos (by simp [h])]

theorem applyPairsLeft_getD (pairs : List (Nat × Option Nat)) (vals : List Value)
    (r : Nat) (h : r < pairs.length) :
    (applyPairsLeft pairs vals).getD r Value.null =
      vals.getD (pairs.getD r (0, none)).1 Value.null := by
  unfold applyPairsLeft
  rw [getD_map pairs _ r Value.null (0, none) h]

theorem applyPairsRight_getD (pairs : List (Nat × Option Nat)) (vals : List Value)
    (r : Nat) (h : r < pairs.length) :
    (applyPairsRight pairs vals).getD r Value.null =
      (match (pairs.getD r (0, none)).2 with
       | some j => vals.getD j Value.null
       | none => Value.null) := by
  unfold applyPairsRight
  rw [getD_map pairs _ r Value.null (0, none) h]

theorem mem_mergeLeft {L R : Table} {lk rk : String} {c : Column}
    (h : c ∈ mergeLeft L R lk rk) :
    (∃ c' ∈ L, c = ⟨c'.name, applyPairsLeft (mergePairs (getCol L lk) (getCol R rk)) c'.values⟩) ∨
    (∃ c' ∈ R, c = ⟨c'.name, applyPairsRight (mergePairs (getCol L lk) (getCol R rk)) c'.values⟩) := by
  unfold mergeLeft at h
  rcases List.mem_append.mp h with h | h
  · rcases List.mem_map.mp h with ⟨c', hc', rfl⟩
    exact Or.inl ⟨c', hc', rfl⟩
  · rcases List.mem_map.mp h with ⟨c', hc', rfl⟩
    exact Or.inr ⟨c', hc', rfl⟩

theorem mem_build_p_clean_name {p_raw : Table} {om : List String} {c : Column}
    (h : c ∈ build_p_clean p_raw om) :
    (∃ x, c.name = "Property: " ++ x) ∨ c.name = "Account" ∨ c.name = "_pid" := by
  unfold build_p_clean at h
  rcases List.mem_append.mp h with h | h
  · unfold tagCols at h
    rcases List.mem_map.mp h with ⟨c', _, rfl⟩
    exact Or.inl ⟨c'.name, rfl⟩
  · simp only [List.mem_cons, List.not_mem_nil, or_false] at h
    rcases h with rfl | rfl
    · exact Or.inr (Or.inl rfl)
    · exact Or.inr (Or.inr rfl)

theorem mem_build_i_clean_name {i_raw : Table} {om : List String} {c : Column}
    (h : c ∈ build_i_clean i_raw om) :
    (∃ x, c.name = "Insurance: " ++ x) ∨ c.name = "_pref" := by
  unfold build_i_clean at h
  rcases List.mem_append.mp h with h | h
  · unfold tagCols at h
    rcases List.mem_map.mp h with ⟨c', _, rfl⟩
    exact Or.inl ⟨c'.name, rfl⟩
  · simp only [List.mem_cons, List.not_mem_nil, or_false] at h
    subst h
    exact Or.inr rfl

theorem propTagged_prop (x : String) : propTagged ("Property: " ++ x) = true := by
  unfold propTagged
  rw [show ("Property: " ++ x).data = "Property: ".data ++ x.data from by
        cases x with | mk xs => rfl,
      List.isPrefixOf_iff_prefix]
  exact List.prefix_append _ _

theorem propTagged_ins (x : String) : propTagged ("Insurance: " ++ x) = false := by
  cases x with | mk xs => rfl

theorem insTagged_ins (x : String) : insTagged ("Insurance: " ++ x) = true := by
  unfold insTagged
  rw [show ("Insurance: " ++ x).data = "Insurance: ".data ++ x.data from by
        cases x with | mk xs => rfl,
      List.isPrefixOf_iff_prefix]
  exact List.prefix_append _ _

theorem insTagged_prop (x : String) : insTagged ("Property: " ++ x) = false := by
  cases x with | mk xs => rfl

theorem mem_build_df4 {p_raw i_raw : Table} {om : List String} {c : Column}
    (h : c ∈ build_df4 p_raw i_raw om) :
    c ∈ mergeLeft (build_p_clean p_raw om) (build_i_clean i_raw om) "_pid" "_pref" ∧
    c.name ≠ "_pid" ∧ c.name ≠ "_pref" := by
  unfold build_df4 dropCols at h
  have hpred := List.of_mem_filter h
  have hmem := List.mem_of_mem_filter h
  refine ⟨hmem, ?_, ?_⟩
  · intro hc
    rw [hc] at hpred
    exact absurd hpred (by decide)
  · intro hc
    rw [hc] at hpred
    exact absurd hpred (by decide)

/-- C5.  In the merged Properties & Insurance sheet, for a property row
`i`: with exactly two matching insurance rows (by the `_pid`/`_pref`
record-id linkage) the merge emits exactly two output rows for `i`; with
zero matches it emits exactly the single unmatched row `(i, none)`; any
two output rows originating from the same property row agree on every
`Property: `-tagged column; on an unmatched row every `Insurance: `-
tagged column is null (empty); and neither linkage column survives into
the final sheet. -/
theorem C5_merged_sheet_semantics (p_raw i_raw : Table) (om : List String) (i : Nat)
    (hi : i < (getCol (build_p_clean p_raw om) "_pid").length) :
    ((matchesOf (getCol (build_i_clean i_raw om) "_pref")
        ((getCol (build_p_clean p_raw om) "_pid").getD i Value.null)).length = 2 →
      ((df4Pairs p_raw i_raw om).filter fun p => p.1 == i).length = 2) ∧
    (matchesOf (getCol (build_i_clean i_raw om) "_pref")
        ((getCol (build_p_clean p_raw om) "_pid").getD i Value.null) = [] →
      ((df4Pairs p_raw i_raw om).filter fun p => p.1 == i) = [(i, none)]) ∧
    (∀ c ∈ build_df4 p_raw i_raw om, propTagged c.name = true →
      ∀ r1 r2 : Nat, r1 < (df4Pairs p_raw i_raw om).length →
        r2 < (df4Pairs p_raw i_raw om).length →
        ((df4Pairs p_raw i_raw om).getD r1 (0, none)).1 = i →
        ((df4Pairs p_raw i_raw om).getD r2 (0, none)).1 = i →
        c.values.getD r1 Value.null = c.values.getD r2 Value.null) ∧
    (matchesOf (getCol (build_i_clean i_raw om) "_pref")
        ((getCol (build_p_clean p_raw om) "_pid").getD i Value.null) = [] →
      ∀ c ∈ build_df4 p_raw i_raw om, insTagged c.name = true →
        ∀ r : Nat, r < (df4Pairs p_raw i_raw om).length →
          ((df4Pairs p_raw i_raw om).getD r (0, none)).1 = i →
          c.values.getD r Value.null = Value.null) ∧
    (∀ c ∈ build_df4 p_raw i_raw om, c.name ≠ "_pid" ∧ c.name ≠ "_pref") := by
  have hfilter : (df4Pairs p_raw i_raw om).filter (fun p => p.1 == i) =
      rowPairs (getCol (build_i_clean i_raw om) "_pref")
        ((getCol (build_p_clean p_raw om) "_pid").getD i Value.null) i := by
    unfold df4Pairs
    exact mergePairs_filter hi
  refine ⟨?_, ?_, ?_, ?_, ?_⟩
  · intro hms2
    rw [hfilter]
    unfold rowPairs
    rw [if_neg (by
          intro hemp
          rw [List.isEmpty_iff.mp hemp] at hms2
          exact absurd hms2 (by decide))]
    rw [List.length_map, hms2]
  · intro hms
    rw [hfilter]
    exact rowPairs_of_no_match i hms
  · intro c hc hprop r1 r2 hr1 hr2 ho1 ho2
    rcases mem_mergeLeft (mem_build_df4 hc).1 with ⟨c', hc', rfl⟩ | ⟨c', hc', rfl⟩
    · unfold df4Pairs at hr1 hr2 ho1 ho2
      dsimp only
      rw [applyPairsLeft_getD _ _ r1 hr1, applyPairsLeft_getD _ _ r2 hr2, ho1, ho2]
    · exfalso
      dsimp only at hprop
      rcases mem_build_i_clean_name hc' with ⟨y, hy⟩ | hy
      · rw [hy, propTagged_ins y] at hprop
        exact Bool.noConfusion hprop
      · rw [hy] at hprop
        exact absurd hprop (by decide)
  · intro hms c hc hins r hr ho
    rcases mem_mergeLeft (mem_build_df4 hc).1 with ⟨c', hc', rfl⟩ | ⟨c', hc', rfl⟩
    · exfalso
      dsimp only at hins
      rcases mem_build_p_clean_name hc' with ⟨y, hy⟩ | hy | hy
      · rw [hy, insTagged_prop y] at hins
        exact Bool.noConfusion hins
      · rw [hy] at hins
        exact absurd hins (by decide)
      · rw [hy] at hins
        exact absurd hins (by decide)
    · unfold df4Pairs at hr ho
      have hmemp : (mergePairs (getCol (build_p_clean p_raw om) "_pid")
          (getCol (build_i_clean i_raw om) "_pref")).getD r (0, none) ∈
          mergePairs (getCol (build_p_clean p_raw om) "_pid")
            (getCol (build_i_clean i_raw om) "_pref") := getD_mem _ r _ hr
      have hfilt : (mergePairs (getCol (build_p_clean p_raw om) "_pid")
          (getCol (build_i_clean i_raw om) "_pref")).getD r (0, none) ∈
          (mergePairs (getCol (build_p_clean p_raw om) "_pid")
            (getCol (build_i_clean i_raw om) "_pref")).filter (fun p => p.1 == i) :=
        List.mem_filter.mpr ⟨hmemp, by rw [beq_iff_eq]; exact ho⟩
      rw [mergePairs_filter hi, rowPairs_of_no_match i hms] at hfilt
      have hpair := List.mem_singleton.mp hfilt
      dsimp only
      rw [applyPairsRight_getD _ _ r hr, hpair]
  · intro c hc
    exact (mem_build_df4 hc).2

/-- C5, witness: property `A1` (`_pid = 1`) has two matching insurance
rows (`PropRecID = 1` twice) and yields two output rows; property `A2`
(`_pid = 2`) has none and yields exactly one unmatched row. -/
theorem C5_witness :
    ((df4Pairs
        [⟨"Account", [Value.str "A1", Value.str "A2"]⟩,
         ⟨"_pid", [Value.int 1, Value.int 2]⟩,
         ⟨"PropCity", [Value.str "X", Value.str "Y"]⟩]
        [⟨"PropRecID", [Value.int 1, Value.int 1]⟩,
         ⟨"Carrier", [Value.str "C1", Value.str "C2"]⟩] []).filter
      fun p => p.1 == 0).length = 2 ∧
    ((df4Pairs
        [⟨"Account", [Value.str "A1", Value.str "A2"]⟩,
         ⟨"_pid", [Value.int 1, Value.int 2]⟩,
         ⟨"PropCity", [Value.str "X", Value.str "Y"]⟩]
        [⟨"PropRecID", [Value.int 1, Value.int 1]⟩,
         ⟨"Carrier", [Value.str "C1", Value.str "C2"]⟩] []).filter
      fun p => p.1 == 1) = [(1, none)] :=
  ⟨(C5_merged_sheet_semantics
      [⟨"Account", [Value.str "A1", Value.str "A2"]⟩,
       ⟨"_pid", [Value.int 1, Value.int 2]⟩,
       ⟨"PropCity", [Value.str "X", Value.str "Y"]⟩]
      [⟨"PropRecID", [Value.int 1, Value.int 1]⟩,
       ⟨"Carrier", [Value.str "C1", Value.str "C2"]⟩] [] 0 (by decide)).1 (by decide),
   (C5_merged_sheet_semantics
      [⟨"Account", [Value.str "A1", Value.str "A2"]⟩,
       ⟨"_pid", [Value.int 1, Value.int 2]⟩,
       ⟨"PropCity", [Value.str "X", Value.str "Y"]⟩]
      [⟨"PropRecID", [Value.int 1, Value.int 1]⟩,
       ⟨"Carrier", [Value.str "C1", Value.str "C2"]⟩] [] 1 (by decide)).2.1 (by decide)⟩
